import Mathlib

/-!
Verification development for the option-handling core of a pluggable
command-line tool (option model, option registry, CLI/config aggregation,
and the orchestration of plugin post-processing hooks).

The embedding below follows the Python source files
`flake8/options/manager.py`, `flake8/options/aggregator.py` and
`flake8/options/parse_args.py` shallowly: Python objects become Lean
structures, dynamic attribute access on namespaces becomes an association
list indexed by attribute name, and the sentinel `_ARG.NO` for "argument
not passed" becomes the `Arg.no` constructor.  The leaf utilities
`parse_comma_separated_list`, `normalize_path` and `normalize_paths` live
in `flake8/utils.py`, which is not part of the sources under review; they
are modelled from the specification and marked as such.
-/

/-- Runtime values carried by options and namespaces.  The code only ever
splits strings into lists of strings and path-normalizes strings or lists
of strings, so these two shapes suffice for the embedding. -/
inductive Value
  | str (s : String)
  | list (l : List String)
deriving DecidableEq, Repr

/-- Python namespace object (argparse.Namespace): a mutable mapping from
attribute name to value, embedded as an association list.  The first
occurrence of a key is its binding. -/
abbrev NS := List (String × Value)

/-- Dynamic attribute read, `getattr(ns, k, None)`. -/
def getattrNS (ns : NS) (k : String) : Option Value :=
  (ns.find? (fun kv => kv.1 == k)).map Prod.snd

/-- Dynamic attribute test, `hasattr(ns, k)`. -/
def hasattrNS (ns : NS) (k : String) : Bool :=
  (getattrNS ns k).isSome

/-- Dynamic attribute write, `setattr(ns, k, v)`: overwrite the existing
binding, or append a fresh one. -/
def setattrNS (ns : NS) (k : String) (v : Value) : NS :=
  if hasattrNS ns k then
    ns.map (fun kv => if kv.1 == k then (kv.1, v) else kv)
  else
    ns ++ [(k, v)]

/-- Character-level counterpart of Python str.swapcase, used by the merge
loop of the aggregator. -/
def swapcaseChar (c : Char) : Char :=
  if c.isLower then c.toUpper else if c.isUpper then c.toLower else c

/-- String swapcase: swap the case of every character. -/
def swapcase (s : String) : String :=
  String.mk (s.data.map swapcaseChar)

/-! Path utilities.  Modelled from the spec: `flake8/utils.py` is absent
from the sources under review.  The spec describes path normalization as
resolving the value as a filesystem path relative to a base directory and
requires the composite normalization to be idempotent.  We model it at the
character-list level: a path containing a separator is joined onto the
base directories and made absolute, and trailing separators are removed. -/

/-- Separator test for path characters. -/
def isSep (c : Char) : Bool := c == '/'

/-- Remove trailing separator characters (Python str.rstrip(sep)). -/
def stripSepsR (l : List Char) : List Char :=
  (l.reverse.dropWhile isSep).reverse

/-- Does the path contain a separator character? -/
def hasSep (l : List Char) : Bool := l.any isSep

/-- Join one directory onto a path; an absolute path discards the
directory, as with os.path.join. -/
def joinChars (d p : List Char) : List Char :=
  if p.head? = some '/' then p else d ++ '/' :: p

/-- Make a path absolute (os.path.abspath, with the process working
directory modelled as the filesystem root). -/
def abspathChars (l : List Char) : List Char :=
  if l.head? = some '/' then l else '/' :: l

/-- Modelled from the spec: flake8.utils.normalize_path at the character
level.  A value containing a separator is resolved against the base
directories and made absolute; trailing separators are always stripped. -/
def normalizePathChars (dirs : List (List Char)) (p : List Char) : List Char :=
  if hasSep p then stripSepsR (abspathChars (dirs.foldr joinChars p))
  else stripSepsR p

/-- Modelled from the spec: flake8.utils.normalize_path on strings. -/
def normalize_path (dirs : List String) (p : String) : String :=
  String.mk (normalizePathChars (dirs.map String.data) p.data)

/-- Modelled from the spec: flake8.utils.parse_comma_separated_list —
split the string value on commas, trimming surrounding whitespace and
dropping empty items. -/
def parse_comma_separated_list (s : String) : List String :=
  ((s.split (fun c => c == ',')).map String.trim).filter (fun x => x ≠ "")

/-- Sentinel for "argument not passed" (`_ARG.NO` in the source): every
sparse constructor parameter of an Option is either absent or a value. -/
inductive Arg (α : Type)
  | no
  | val (a : α)
deriving DecidableEq, Repr

/-- Heterogeneous values stored in an Option's keyword fields.  `normFunc
csl np` stands for the function produced by wrapping `_flake8_normalize`
with the recorded keyword flags, which the constructor may install as the
`type` local variable. -/
inductive PVal
  | str (s : String)
  | bool (b : Bool)
  | normFunc (csl np : Bool)
deriving DecidableEq, Repr

/-- Constructor parameters of `Option.__init__`, one field per Python
parameter, in source order. -/
structure OptionArgs where
  short_option_name : Arg String
  long_option_name : Arg String
  action : Arg PVal
  default : Arg PVal
  type : Arg PVal
  dest : Arg PVal
  nargs : Arg PVal
  const : Arg PVal
  choices : Arg PVal
  help : Arg PVal
  metavar : Arg PVal
  required : Arg Bool
  parse_from_config : Bool
  comma_separated_list : Bool
  normalize_paths : Bool
deriving DecidableEq, Repr

/-- All constructor parameters left at their declared defaults. -/
def defaultArgs : OptionArgs :=
  { short_option_name := .no
    long_option_name := .no
    action := .no
    default := .no
    type := .no
    dest := .no
    nargs := .no
    const := .no
    choices := .no
    help := .no
    metavar := .no
    required := .no
    parse_from_config := false
    comma_separated_list := false
    normalize_paths := false }

/-- The constructed Option object: the attributes that `Option.__init__`
stores on `self`, with the exact values the source assigns. -/
structure Flake8Option where
  short_option_name : Arg String
  long_option_name : Arg String
  option_args : List (Arg String)
  action : Arg PVal
  default : Arg PVal
  type : Arg PVal
  dest : Arg PVal
  nargs : Arg PVal
  const : Arg PVal
  choices : Arg PVal
  help : Arg PVal
  metavar : Arg PVal
  required : Bool
  parse_from_config : Bool
  comma_separated_list : Bool
  normalize_paths : Bool
  config_name : Option String
deriving DecidableEq, Repr

/-- Test used by the name-swapping branch: the short name was passed and
starts with the long-flag prefix. -/
def shortLooksLong (s : Arg String) : Bool :=
  match s with
  | .no => false
  | .val s => s.startsWith "--"

/-- Embedding of `Option.__init__` (manager.py lines 44-118).  Mirrors the
source statement by statement: the name swap, the `type` override when
both behavioral flags are set, the attribute assignments, the
`parse_from_config` check (which raises ValueError), and the computation
of `config_name`. -/
def mkOption (a : OptionArgs) : Except String Flake8Option :=
  let (short, long) :=
    if a.long_option_name = Arg.no ∨ shortLooksLong a.short_option_name then
      (Arg.no, a.short_option_name)
    else
      (a.short_option_name, a.long_option_name)
  let typeLocal : Arg PVal :=
    if a.comma_separated_list ∧ a.normalize_paths then
      Arg.val (PVal.normFunc a.normalize_paths a.comma_separated_list)
    else a.type
  let requiredStored : Bool :=
    match a.required with
    | .no => true
    | .val b => b
  let finish (cfg : Option String) : Flake8Option :=
    { short_option_name := long
      long_option_name := short
      option_args := [short, long].filter (fun x => x = Arg.no)
      action := a.default
      default := a.action
      type := a.const
      dest := typeLocal
      nargs := a.dest
      const := a.nargs
      choices := a.metavar
      help := a.choices
      metavar := a.help
      required := requiredStored
      parse_from_config := !a.parse_from_config
      comma_separated_list := a.normalize_paths
      normalize_paths := a.comma_separated_list
      config_name := cfg }
  if !a.parse_from_config then
    match long with
    | .no =>
        Except.error
          "When specifying parse_from_config=True, a long_option_name must also be specified."
    | .val l => Except.ok (finish (some (l.drop 2)))
  else
    Except.ok (finish none)

/-- The `option_kwargs` dictionary built in the constructor, in the
source's insertion order, each key mapped to the stored attribute the
source pairs it with. -/
def Flake8Option.option_kwargs (o : Flake8Option) : List (String × Arg PVal) :=
  [("action", o.type),
   ("default", o.dest),
   ("type", o.nargs),
   ("dest", o.const),
   ("nargs", o.choices),
   ("const", o.help),
   ("choices", o.metavar),
   ("help", o.default),
   ("metavar", o.action),
   ("required", Arg.val (PVal.bool o.required))]

/-- Property `filtered_option_kwargs`: keep only entries whose value is
not the "not passed" sentinel. -/
def Flake8Option.filtered_option_kwargs (o : Flake8Option) :
    List (String × Arg PVal) :=
  o.option_kwargs.filter (fun kv => kv.2 ≠ Arg.no)

/-- Method `to_argparse`: the positional flag-name list together with the
filtered keyword mapping. -/
def Flake8Option.to_argparse (o : Flake8Option) :
    List (Arg String) × List (String × Arg PVal) :=
  (o.option_args, o.filtered_option_kwargs)

/-- Method `Option.normalize` (manager.py lines 135-146): split a string
value on commas when the stored comma_separated_list flag is set, then
path-normalize when the stored normalize_paths flag is set. -/
def Flake8Option.normalize (o : Flake8Option) (value : Value)
    (dirs : List String) : Value :=
  let value :=
    if o.comma_separated_list then
      match value with
      | Value.str s => Value.list (parse_comma_separated_list s)
      | v => v
    else value
  if o.normalize_paths then
    match value with
    | Value.list l => Value.list (l.map (normalize_path dirs))
    | Value.str s => Value.str (normalize_path dirs s)
  else value

/-- Module-level helper `_flake8_normalize` (manager.py lines 22-38), the
function the constructor wraps into the `type` callable: the same
split-then-normalize pipeline, driven by explicit keyword flags. -/
def flake8_normalize (comma_separated_list normalize_paths : Bool)
    (dirs : List String) (value : Value) : Value :=
  let ret :=
    if comma_separated_list then
      match value with
      | Value.str s => Value.list (parse_comma_separated_list s)
      | v => v
    else value
  if normalize_paths then
    match ret with
    | Value.str s => Value.str (normalize_path dirs s)
    | Value.list l => Value.list (l.map (normalize_path dirs))
  else ret

/-! Argparse engine model.  The underlying CLI-parsing engine is an
external collaborator; we abstract an argument vector as the set of
destinations it explicitly supplies together with the positional file
arguments, and a parser as its current per-destination defaults.  Parsing
yields, for every known destination, the explicitly supplied value when
present and the current default otherwise, plus the positional
`filenames` attribute registered in `OptionManager.__init__`. -/

/-- Abstracted argument vector: explicitly supplied destination values
and positional filename arguments. -/
structure Argv where
  flags : List (String × Value)
  files : List String
deriving DecidableEq, Repr

/-- Engine state: the current default value of every destination. -/
structure ParserState where
  defaults : List (String × Value)
deriving DecidableEq, Repr

/-- Engine set_defaults(**vars(values)): every attribute of the given
namespace becomes the new default for its destination, added when the
destination is unknown. -/
def ParserState.set_defaults (p : ParserState) (v : NS) : ParserState :=
  { defaults := v.foldl (fun ds kv => setattrNS ds kv.1 kv.2) p.defaults }

/-- Engine parse_args over one argument vector: each destination takes
its explicitly supplied value, else its current default; the positional
`filenames` attribute takes the supplied files, else its default. -/
def ParserState.run (p : ParserState) (a : Argv) : NS :=
  ((p.defaults.filter (fun kv => kv.1 ≠ "filenames")).map
    (fun kv =>
      (kv.1, ((a.flags.find? (fun f => f.1 == kv.1)).map Prod.snd).getD kv.2)))
  ++ [("filenames",
        if a.files.isEmpty then
          (getattrNS p.defaults "filenames").getD (Value.list [])
        else Value.list a.files)]

/-- The OptionManager state the aggregation claims depend on: its parser
and the accumulated extended default select / ignore lists
(manager.py lines 182-185). -/
structure OptionManager where
  parser : ParserState
  extended_default_ignore : List String
  extended_default_select : List String
deriving DecidableEq, Repr

/-- Method `OptionManager.parse_args` (manager.py lines 258-266): when a
values namespace is supplied, first install its attributes as parser
defaults; then parse the given argument vector, or the process-level
sys.argv when the argument is None. -/
def OptionManager.parse_args (m : OptionManager) (sysArgv : Argv)
    (args : Option Argv) (values : Option NS) : OptionManager × NS :=
  match values with
  | some v =>
      let m2 := { m with parser := m.parser.set_defaults v }
      (m2, m2.parser.run (args.getD sysArgv))
  | none => (m, m.parser.run (args.getD sysArgv))

/-- The config-merge loop of `aggregate_options` (aggregator.py lines
36-48): for each parsed config entry, choose the destination name — the
key itself, unless the key is already an attribute of the namespace, in
which case the key with its case swapped — and write the config value to
that destination. -/
def mergeConfig (dv : NS) (parsedConfig : List (String × Value)) : NS :=
  parsedConfig.foldl
    (fun dv kv =>
      let dest_name := if hasattrNS dv kv.1 then swapcase kv.1 else kv.1
      setattrNS dv dest_name kv.2)
    dv

/-- Function `aggregate_options` (aggregator.py lines 19-50).  The parsed
config mapping is the result of config.parse_config, an external
collaborator absent from the sources under review, so it is taken as an
input.  Steps, exactly as in the source: parse the argument vector once;
store the manager's extended select list on the ignore attribute and the
ignore list on the select attribute; run the config-merge loop; then call
manager.parse_args(None, default_values), which parses the process-level
sys.argv with the merged namespace installed as defaults. -/
def aggregate_options (m : OptionManager)
    (parsedConfig : List (String × Value))
    (argv : Option Argv) (sysArgv : Argv) : NS :=
  let (m1, default_values) := m.parse_args sysArgv argv none
  let default_values :=
    setattrNS default_values "extended_default_ignore"
      (Value.list m.extended_default_select)
  let default_values :=
    setattrNS default_values "extended_default_select"
      (Value.list m.extended_default_ignore)
  let default_values := mergeConfig default_values parsedConfig
  (m1.parse_args sysArgv none (some default_values)).2

/-! Orchestrator step 9 (parse_args.py lines 53-65): the plugin
post-processing hook loop.  A hook is modelled by its response to a call
shape; the loop records every call it performs. -/

/-- Outcome of invoking a hook with a given call shape. -/
inductive HookRes
  | ok
  | typeError
  | err
deriving DecidableEq, Repr

/-- A call performed on a plugin's hook: the full calling convention
(registry, namespace, filename list) or the fallback argument-vector
convention. -/
inductive HookCall
  | full (opts : NS) (filenames : List String)
  | fallback (argv : List String)
deriving DecidableEq, Repr

/-- The filenames attribute of the final namespace, as read by
`opts.filenames`. -/
def optsFilenames (opts : NS) : List String :=
  match getattrNS opts "filenames" with
  | some (Value.list l) => l
  | _ => []

/-- The hook loop of parse_args.py lines 53-65: plugins without a
parse_options hook are skipped; each hook is first called with the full
convention, where the filename argument is `opts.filenames[::-1]`; a
TypeError from that call triggers the fallback call with the original
argument vector; any other failure (and any failure of the fallback
call) propagates and aborts the run.  The result is the list of calls
performed, or an error when a hook failure escapes. -/
def run_parse_options (plugins : List (Option (HookCall → HookRes)))
    (opts : NS) (argv : List String) : Except Unit (List HookCall) :=
  match plugins with
  | [] => Except.ok []
  | none :: rest => run_parse_options rest opts argv
  | some h :: rest =>
      let c := HookCall.full opts (optsFilenames opts).reverse
      match h c with
      | HookRes.ok => (run_parse_options rest opts argv).map (fun cs => c :: cs)
      | HookRes.err => Except.error ()
      | HookRes.typeError =>
          let c2 := HookCall.fallback argv
          match h c2 with
          | HookRes.ok =>
              (run_parse_options rest opts argv).map (fun cs => c :: c2 :: cs)
          | _ => Except.error ()

/-! Concrete inputs used by the claim theorems. -/

/-- Manager with one registered destination, built-in default "D". -/
def mC1 : OptionManager :=
  { parser := { defaults := [("max_line_length", Value.str "D")] }
    extended_default_ignore := []
    extended_default_select := [] }

/-- Parsed config supplying "C" for that destination. -/
def cfgC1 : List (String × Value) := [("max_line_length", Value.str "C")]

/-- Empty argument vector. -/
def argvE : Argv := { flags := [], files := [] }

/-- Argument vector explicitly supplying "X" for the destination. -/
def argvX : Argv := { flags := [("max_line_length", Value.str "X")], files := [] }

/-- A process-level sys.argv that differs from the aggregated vector and
supplies "S" for the destination. -/
def sysS : Argv := { flags := [("max_line_length", Value.str "S")], files := [] }

/-- C1: the claim states the three-way precedence default < config < CLI,
with step 5 re-parsing the same argument vector that step 1 parsed.  On
the code: with default "D", config "C" and an empty argument vector the
final value is "D", not "C" (the config value is written to the
swapcased attribute); and with the CLI explicitly supplying "X" the final
value is whatever the process-level sys.argv supplies ("S" here), because
the second parse is called with None instead of the argument vector. -/
theorem aggregate_options_precedence_violated :
    getattrNS (aggregate_options mC1 cfgC1 (some argvE) argvE)
        "max_line_length" = some (Value.str "D") ∧
      getattrNS (aggregate_options mC1 cfgC1 (some argvX) sysS)
        "max_line_length" = some (Value.str "S") :=
  ⟨rfl, rfl⟩

/-- Namespace holding the destination with its default. -/
def nsC2 : NS := [("max_line_length", Value.str "79")]

/-- Config entry for the same key. -/
def cfgC2 : List (String × Value) := [("max_line_length", Value.str "100")]

/-- C2: the claim states that the merge loop overwrites the attribute for
the matched destination with the config value.  On the code, when the key
is already an attribute of the namespace the loop writes the config value
to the swapcased name instead, so the destination keeps its old value and
a fresh upper-cased attribute receives the config value. -/
theorem mergeConfig_swapcase_clobber :
    getattrNS (mergeConfig nsC2 cfgC2) "max_line_length" =
        some (Value.str "79") ∧
      getattrNS (mergeConfig nsC2 cfgC2) "MAX_LINE_LENGTH" =
        some (Value.str "100") :=
  ⟨rfl, rfl⟩

/-- Manager whose registry accumulated select list is ["X1"] and ignore
list is ["W2"]. -/
def mC3 : OptionManager :=
  { parser := { defaults := [] }
    extended_default_ignore := ["W2"]
    extended_default_select := ["X1"] }

/-- C3: the claim states that after aggregation the namespace attribute
extended_default_select equals the manager's extended_default_select and
likewise for ignore.  On the code the two assignments are crossed: the
select attribute receives the manager's ignore list and vice versa. -/
theorem aggregate_options_extended_defaults_swapped :
    getattrNS (aggregate_options mC3 [] (some argvE) argvE)
        "extended_default_select" = some (Value.list ["W2"]) ∧
      getattrNS (aggregate_options mC3 [] (some argvE) argvE)
        "extended_default_ignore" = some (Value.list ["X1"]) :=
  ⟨rfl, rfl⟩

/-- Option declared with one long flag name and an explicitly set action
field; every other field is left unset. -/
def argsC4 : OptionArgs :=
  { defaultArgs with
      short_option_name := Arg.val "--select"
      action := Arg.val (PVal.str "store") }

/-- C4: the claim states that the engine projection contains exactly the
explicitly set constructor fields, each under its own attribute name, and
no unset field (including required).  On the code, an Option whose only
set keyword field is action projects that value under the key "help", the
key "action" is absent, and "required" is always present mapped to True
even though it was never set. -/
theorem option_projection_scrambled :
    (mkOption argsC4).map Flake8Option.filtered_option_kwargs =
      Except.ok [("help", Arg.val (PVal.str "store")),
                 ("required", Arg.val (PVal.bool true))] :=
  rfl

/-- Option requesting config parsing while supplying only a short flag
name. -/
def argsC5 : OptionArgs :=
  { defaultArgs with
      short_option_name := Arg.val "-q"
      parse_from_config := true }

/-- C5: the claim states construction raises exactly when
parse_from_config is true and no long name is given, with config_name
computed by prefix-stripping when it succeeds, and no such error when
parse_from_config is false.  On the code the check is inverted: an Option
with parse_from_config true and only a short name constructs successfully
with config_name left unset, while an Option with parse_from_config false
and no names at all raises the configuration error. -/
theorem option_config_invariant_inverted :
    (mkOption argsC5).map Flake8Option.config_name = Except.ok none ∧
      mkOption defaultArgs =
        Except.error
          "When specifying parse_from_config=True, a long_option_name must also be specified." :=
  ⟨rfl, rfl⟩

/-- Option declared with exactly one name, which starts with the
long-flag prefix, passed as the first parameter. -/
def argsC6 : OptionArgs :=
  { defaultArgs with short_option_name := Arg.val "--select" }

/-- C6: the claim states that a single long-form name passed first is
stored as the long option name, the short name stays unset, and the
engine flag-name list is exactly the names given.  On the code the
storing assignments are crossed — the name lands in short_option_name and
long_option_name stays unset — and the flag-name list keeps exactly the
"not passed" sentinels instead of the given names. -/
theorem option_long_name_swap_bug :
    (mkOption argsC6).map
        (fun o => (o.long_option_name, o.short_option_name, o.option_args)) =
      Except.ok (Arg.no, Arg.val "--select", [Arg.no]) :=
  rfl

/-- Option declared with only comma_separated_list set to true. -/
def argsC7 : OptionArgs :=
  { defaultArgs with
      short_option_name := Arg.val "--exclude"
      comma_separated_list := true }

/-- C7: the claim states that a comma_separated_list-only Option splits
string values on commas without path-normalizing them.  On the code the
constructor stores the two behavioral flags crossed, so such an Option
keeps comma_separated_list false and normalize_paths true, and normalize
applied to "a,b" path-normalizes the whole string instead of splitting
it into ["a", "b"]. -/
theorem option_normalize_flags_swapped :
    (mkOption argsC7).map
        (fun o =>
          (o.comma_separated_list, o.normalize_paths,
            o.normalize (Value.str "a,b") [])) =
      Except.ok (false, true, Value.str "a,b") :=
  rfl

/-- Final namespace whose filenames attribute lists two files in order. -/
def optsC9 : NS := [("filenames", Value.list ["a.py", "b.py"])]

/-- A plugin hook that accepts every call shape. -/
def hookAccepts : HookCall → HookRes := fun _ => HookRes.ok

/-- C9: the claim states each post-processing hook is called with the
resolved filename list exactly as it appears in the namespace, in the
same order.  On the code the hook receives opts.filenames reversed:
with filenames ["a.py", "b.py"] the single accepted call carries
["b.py", "a.py"]. -/
theorem parse_options_filenames_reversed :
    optsFilenames optsC9 = ["a.py", "b.py"] ∧
      run_parse_options [some hookAccepts] optsC9 [] =
        Except.ok [HookCall.full optsC9 ["b.py", "a.py"]] :=
  ⟨rfl, rfl⟩

/-! Idempotence of path normalization. -/

/-- Dropping a predicate prefix twice is the same as dropping it once. -/
theorem dropWhile_dropWhile (p : Char → Bool) (l : List Char) :
    (l.dropWhile p).dropWhile p = l.dropWhile p := by
  induction l with
  | nil => rfl
  | cons a t ih =>
      by_cases h : p a = true
      · simp [List.dropWhile_cons, h, ih]
      · simp [List.dropWhile_cons, h]

/-- Stripping trailing separators is idempotent. -/
theorem stripSepsR_idem (l : List Char) :
    stripSepsR (stripSepsR l) = stripSepsR l := by
  unfold stripSepsR
  rw [List.reverse_reverse, dropWhile_dropWhile]

/-- A list none of whose elements satisfies the predicate is unchanged by
dropWhile. -/
theorem dropWhile_of_any_false (p : Char → Bool) (l : List Char)
    (h : l.any p = false) : l.dropWhile p = l := by
  cases l with
  | nil => rfl
  | cons a t =>
      cases ha : p a with
      | true => exact absurd h (by simp [List.any_cons, ha])
      | false => simp [List.dropWhile_cons, ha]

/-- A path without separators is unchanged by stripping. -/
theorem stripSepsR_of_no_sep (l : List Char) (h : l.any isSep = false) :
    stripSepsR l = l := by
  have h' : l.reverse.any isSep = false := by
    cases hx : l.reverse.any isSep with
    | false => rfl
    | true =>
        exfalso
        rcases List.any_eq_true.mp hx with ⟨c, hc, hcs⟩
        rw [List.mem_reverse] at hc
        have : l.any isSep = true := List.any_eq_true.mpr ⟨c, hc, hcs⟩
        rw [h] at this
        exact Bool.false_ne_true this
  unfold stripSepsR
  rw [dropWhile_of_any_false _ _ h', List.reverse_reverse]

/-- The stripped path is a prefix of the original path. -/
theorem stripSepsR_prefix (l : List Char) : (stripSepsR l) <+: l := by
  refine ⟨(l.reverse.takeWhile isSep).reverse, ?_⟩
  show (l.reverse.dropWhile isSep).reverse ++ (l.reverse.takeWhile isSep).reverse = l
  rw [← List.reverse_append, List.takeWhile_append_dropWhile, List.reverse_reverse]

/-- A prefix of a list headed by the separator is empty or headed by the
separator. -/
theorem prefix_slash (m u : List Char) (h : m <+: ('/' :: u)) :
    m = [] ∨ m.head? = some '/' := by
  rcases h with ⟨r, hr⟩
  cases m with
  | nil => exact Or.inl rfl
  | cons a t =>
      right
      injection hr with h1 h2
      simp [h1]

/-- Joining directories onto an absolute path leaves it unchanged. -/
theorem foldr_join_abs (dirs : List (List Char)) (l : List Char)
    (h : l.head? = some '/') : dirs.foldr joinChars l = l := by
  induction dirs with
  | nil => rfl
  | cons d ds ih =>
      rw [List.foldr_cons, ih]
      simp [joinChars, h]

/-- The absolutized path is headed by the separator. -/
theorem abspath_head (l : List Char) : (abspathChars l).head? = some '/' := by
  unfold abspathChars
  by_cases h : l.head? = some '/'
  · rw [if_pos h]; exact h
  · rw [if_neg h]; rfl

/-- Absolutizing an absolute path is the identity. -/
theorem abspath_of_abs (l : List Char) (h : l.head? = some '/') :
    abspathChars l = l := by
  unfold abspathChars
  rw [if_pos h]

/-- Character-level path normalization is idempotent. -/
theorem normalizePathChars_idem (dirs : List (List Char)) (p : List Char) :
    normalizePathChars dirs (normalizePathChars dirs p) =
      normalizePathChars dirs p := by
  by_cases hp : hasSep p = true
  · have hfix : normalizePathChars dirs p
        = stripSepsR (abspathChars (dirs.foldr joinChars p)) := by
      unfold normalizePathChars
      rw [if_pos hp]
    set q := abspathChars (dirs.foldr joinChars p) with hq
    have hqh : q.head? = some '/' := abspath_head _
    rw [hfix]
    by_cases hr2 : hasSep (stripSepsR q) = true
    · -- the stripped result still holds a separator, hence is nonempty,
      -- hence inherits the leading separator from q
      have hne : stripSepsR q ≠ [] := by
        intro hnil
        rw [hnil] at hr2
        simp [hasSep] at hr2
      obtain ⟨u, hu⟩ : ∃ u, q = '/' :: u := by
        cases hq2 : q with
        | nil => rw [hq2] at hqh; exact absurd hqh (by simp)
        | cons c u =>
            rw [hq2] at hqh
            simp at hqh
            exact ⟨u, by rw [hqh]⟩
      have hpre : (stripSepsR q) <+: ('/' :: u) := hu ▸ stripSepsR_prefix q
      have hhead : (stripSepsR q).head? = some '/' := by
        rcases prefix_slash _ _ hpre with hnil | hh
        · exact absurd hnil hne
        · exact hh
      unfold normalizePathChars
      rw [if_pos hr2, foldr_join_abs _ _ hhead, abspath_of_abs _ hhead]
      exact stripSepsR_idem q
    · have hr2' : hasSep (stripSepsR q) = false := by
        cases hx : hasSep (stripSepsR q) with
        | false => rfl
        | true => exact absurd hx hr2
      unfold normalizePathChars
      rw [if_neg (by rw [hr2']; exact Bool.false_ne_true)]
      exact stripSepsR_idem q
  · have hp' : hasSep p = false := by
      cases hx : hasSep p with
      | false => rfl
      | true => exact absurd hx hp
    have h1 : normalizePathChars dirs p = p := by
      unfold normalizePathChars
      rw [if_neg (by rw [hp']; exact Bool.false_ne_true)]
      exact stripSepsR_of_no_sep p hp'
    rw [h1, h1]

/-- String-level path normalization is idempotent. -/
theorem normalize_path_idem (dirs : List String) (p : String) :
    normalize_path dirs (normalize_path dirs p) = normalize_path dirs p :=
  congrArg String.mk (normalizePathChars_idem _ _)

/-- Mapping an idempotent path normalization over a list twice equals
mapping it once. -/
theorem map_normalize_path_idem (dirs : List String) (l : List String) :
    (l.map (normalize_path dirs)).map (normalize_path dirs) =
      l.map (normalize_path dirs) := by
  induction l with
  | nil => rfl
  | cons a t ih => simp [List.map_cons, normalize_path_idem, ih]

/-- C8: Option.normalize is idempotent — for every Option, every value
and every list of base directories, normalizing the result of normalize
again yields the same value; in particular an already-split list of
already-normalized paths is returned unchanged. -/
theorem normalize_idempotent (o : Flake8Option) (v : Value)
    (dirs : List String) :
    o.normalize (o.normalize v dirs) dirs = o.normalize v dirs := by
  unfold Flake8Option.normalize
  cases hc : o.comma_separated_list <;> cases hn : o.normalize_paths <;>
    cases v <;>
    simp [normalize_path_idem, map_normalize_path_idem]

/-- C10: for every Option whose stored comma_separated_list and
normalize_paths flags are both false, normalize returns its argument
unchanged for every value and every base-directory list. -/
theorem normalize_identity_when_flags_unset (o : Flake8Option) (v : Value)
    (dirs : List String) (hc : o.comma_separated_list = false)
    (hn : o.normalize_paths = false) : o.normalize v dirs = v := by
  unfold Flake8Option.normalize
  rw [hc, hn]
  simp

/-- Concrete Option object with both behavioral flags stored false. -/
def oC10 : Flake8Option :=
  { short_option_name := Arg.no
    long_option_name := Arg.val "--count"
    option_args := [Arg.no]
    action := Arg.no
    default := Arg.no
    type := Arg.no
    dest := Arg.no
    nargs := Arg.no
    const := Arg.no
    choices := Arg.no
    help := Arg.no
    metavar := Arg.no
    required := true
    parse_from_config := true
    comma_separated_list := false
    normalize_paths := false
    config_name := none }

/-- C10 witness: the identity law evaluated on a concrete Option with
both stored flags false and a concrete string value. -/
theorem normalize_identity_when_flags_unset_witness :
    oC10.comma_separated_list = false ∧ oC10.normalize_paths = false ∧
      oC10.normalize (Value.str "a,b") ["/base"] = Value.str "a,b" :=
  ⟨rfl, rfl,
    normalize_identity_when_flags_unset oC10 (Value.str "a,b") ["/base"] rfl rfl⟩
